import Mathlib

/-!
Shallow embedding of the execution and prioritisation core of a
directed greybox fuzzer (the ParmeSan fork of Angora), and proofs about
it.  The embedding covers:

* the fast-runtime comparison hook (src/runtime_fast/src/fast.rs);
* the command profile and its worker specialisation
  (src/fuzzer/src/command.rs);
* the fork-server client's status classification
  (src/fuzzer/src/executor/forksrv.rs);
* the executor's explored / invariable / consistent / timeout checks and
  the indirect-call magic-byte fabrication of the tracking pass
  (src/fuzzer/src/executor/executor.rs);
* the condition depot's queue operations (src/fuzzer/src/depot/depot.rs).

Pure data is translated directly; stateful code is explicit state
passing; machine integers are Nat with explicit `% 2 ^ w` or wrapping
subtraction where the Rust semantics overflow; code that can panic or
fault is embedded with Option / Except so the panic is an observable
value.  Types whose Rust modules are not among the given sources
(cond_stmt, priority, shm_conds, angora_common) are modelled from the
specification and say so in their doc comments.
-/

namespace Parmesan

/-- Run statuses produced by the executor and the fork server
(`StatusType` in src/fuzzer/src/executor). -/
inductive StatusType where
  | normal
  | timeout
  | crash
  | skip
  | error
  deriving DecidableEq, Repr

/-- Modelled from the spec: the solving state machine of a condition,
`Initial → Exploring → (OneByte | Deterministic | Search) → Done`, plus
the `Timeout` state entered on persistent timeout (the cond_stmt module
is not among the given sources). -/
inductive CondState where
  | initial
  | exploring
  | oneByte
  | deterministic
  | search
  | done
  | timeout
  deriving DecidableEq, Repr

def CondState.isDone : CondState → Bool
  | .done => true
  | _ => false

def CondState.isInitial : CondState → Bool
  | .initial => true
  | _ => false

def CondState.isDet : CondState → Bool
  | .deterministic => true
  | _ => false

def CondState.isOneByte : CondState → Bool
  | .oneByte => true
  | _ => false

/-- Modelled from the spec: a taint byte range `(begin, end)` into the
input (`TagSeg` of angora_common, not among the given sources); `lo` is
the first offset, `hi` one past the last. -/
structure TagSeg where
  sign : Bool
  lo : Nat
  hi : Nat
  deriving DecidableEq, Repr

/-- Modelled from the spec: the identity-bearing base of a condition
statement; equality and hash of a CondStmt are over
`(cmpid, context, order)` only (the cond_stmt module is not among the
given sources). -/
structure CondBase where
  cmpid : Nat
  context : Nat
  order : Nat
  func : Nat
  condition : Nat
  op : Nat
  arg1 : Nat
  arg2 : Nat
  lastCallsite : Nat
  deriving DecidableEq, Repr

/-- Modelled from the spec: one conditional-branch constraint record
(the cond_stmt module is not among the given sources).  `cnt` is the
number of times the condition has been fuzzed, used by
`is_first_time`. -/
structure CondStmt where
  base : CondBase
  offsets : List TagSeg
  /-- the source's `variables` field (that spelling is reserved in Lean) -/
  vars : List Nat
  speed : Nat
  cnt : Nat
  state : CondState
  isDesirable : Bool
  isConsistent : Bool
  isTarget : Bool
  deriving DecidableEq, Repr

/-- Identity of two condition statements: `(cmpid, context, order)`
only, per the spec's CondStmt equality. -/
def sameId (a b : CondStmt) : Bool :=
  a.base.cmpid == b.base.cmpid
    && a.base.context == b.base.context
    && a.base.order == b.base.order

/-- Modelled from the spec: marking a condition done freezes it in the
terminal `Done` state. -/
def CondStmt.markAsDone (c : CondStmt) : CondStmt :=
  { c with state := .done }

/-- Modelled from the spec: persistent timeout transitions the
condition to the `Timeout` state. -/
def CondStmt.toTimeout (c : CondStmt) : CondStmt :=
  { c with state := .timeout }

def CondStmt.isDone (c : CondStmt) : Bool := c.state.isDone

/-- Modelled from the spec: a condition is first-time until it has been
fuzzed once. -/
def CondStmt.isFirstTime (c : CondStmt) : Bool := c.cnt == 1

/-- Modelled from the spec: `UNREACHABLE` is the u64 sentinel meaning
the condition was not hit this run. -/
def UNREACHABLE : Nat := 2 ^ 64 - 1

/-! ## Fast runtime hook (src/runtime_fast/src/fast.rs) -/

/-- A fault the instrumented target can raise; a run that would crash
is an `Except.error` value in the embedding. -/
inductive RtFault where
  | nullDeref
  deriving DecidableEq, Repr

/-- Modelled from the spec: the ShmConds slot names the condition
currently under solving by `(cmpid, context)` (the shm_conds module is
not among the given sources). -/
structure CondSlot where
  cmpid : Nat
  context : Nat
  deriving DecidableEq, Repr

/-- Modelled from the spec: the slot matches when its `(cmpid, context)`
equals the hook's arguments. -/
def CondSlot.checkMatch (c : CondSlot) (cmpid context : Nat) : Bool :=
  c.cmpid == cmpid && c.context == context

/-- `__angora_trace_cmp` from src/runtime_fast/src/fast.rs.  The Rust
body begins with `let a: *mut i8 = ptr::null_mut(); *a = 4;`, an
unconditional write through a null pointer, before it consults the
condition slot; the embedding surfaces that write as
`Except.error RtFault.nullDeref`.  The rest of the source's logic (the
match on the slot, `check_match`, `update_cmp`) is kept after the
faulting statement exactly as in the source; `update` abstracts
`ShmConds::update_cmp`, whose module is not among the given sources. -/
def angoraTraceCmp (update : Nat → Nat → Nat → Nat)
    (slot : Option CondSlot)
    (condition cmpid context arg1 arg2 func : Nat) : Except RtFault Nat :=
  (Except.error RtFault.nullDeref : Except RtFault Unit) >>= fun _ =>
    match slot with
    | some c =>
        if c.checkMatch cmpid context then
          Except.ok (update condition arg1 arg2)
        else
          Except.ok condition
    | none =>
        let _ := func
        Except.ok condition

/-- C1: the claim says every invocation of `__angora_trace_cmp` returns
normally without faulting.  The code instead writes `4` through a null
pointer before reading the condition slot, so every call — any
condition, cmpid, context, arguments, slot contents and update
function — faults and never reaches the slot logic. -/
theorem C1_trace_cmp_always_faults
    (update : Nat → Nat → Nat → Nat) (slot : Option CondSlot)
    (condition cmpid context arg1 arg2 func : Nat) :
    angoraTraceCmp update slot condition cmpid context arg1 arg2 func
      = Except.error RtFault.nullDeref := rfl

/-! ## Command profile (src/fuzzer/src/command.rs) -/

/-- `InstrumentationMode` from src/fuzzer/src/command.rs. -/
inductive InstrumentationMode where
  | llvm
  | pin
  deriving DecidableEq, Repr

/-- `CommandOpt` from src/fuzzer/src/command.rs.  Paths are strings;
`searchMethod` abstracts `search::SearchMethod` (whose module is not
among the given sources) as an opaque numeric tag carried along
unchanged. -/
structure CommandOpt where
  mode : InstrumentationMode
  id : Nat
  main : String × List String
  track : String × List String
  tmpDir : String
  outFile : String
  forksrvSocketPath : String
  trackPath : String
  isStdin : Bool
  searchMethod : Nat
  memLimit : Nat
  timeLimit : Nat
  isRaw : Bool
  usesAsan : Bool
  ldLibrary : String
  enableAfl : Bool
  enableExploitation : Bool
  directedTargetsFile : String
  sanoptBin : Option String
  directedOnly : Bool
  deriving DecidableEq, Repr

/-- The `@@` rewrite inside `CommandOpt::specify`: every argument that
is exactly `"@@"` becomes the new input path. -/
def replaceInputArg (args : List String) (newFile : String) : List String :=
  args.map fun a => if a = "@@" then newFile else a

/-- `CommandOpt::specify` from src/fuzzer/src/command.rs: clone with
the three scratch paths suffixed `_id`, `@@` in both argv lists
replaced by the new input path when not in stdin mode, the worker id
stored, and `is_raw` cleared. -/
def CommandOpt.specify (c : CommandOpt) (id : Nat) : CommandOpt :=
  let newFile := c.outFile ++ "_" ++ toString id
  let newForksrvSocketPath := c.forksrvSocketPath ++ "_" ++ toString id
  let newTrackPath := c.trackPath ++ "_" ++ toString id
  let mainArgs := if c.isStdin then c.main.2 else replaceInputArg c.main.2 newFile
  let trackArgs := if c.isStdin then c.track.2 else replaceInputArg c.track.2 newFile
  { c with
    id := id
    main := (c.main.1, mainArgs)
    track := (c.track.1, trackArgs)
    outFile := newFile
    forksrvSocketPath := newForksrvSocketPath
    trackPath := newTrackPath
    isRaw := false }

/-- `CommandOpt::sanopt` from src/fuzzer/src/command.rs: clone with the
sanitiser-optimised binary substituted (falling back to the main
binary), scratch paths suffixed `_sanopt`, ASAN forced on and the
memory limit cleared.  The source does not touch `is_raw` here. -/
def CommandOpt.sanopt (c : CommandOpt) : CommandOpt :=
  let bin := match c.sanoptBin with
    | some optbin => optbin
    | none => c.main.1
  { c with
    main := (bin, c.main.2)
    outFile := c.outFile ++ "_" ++ "sanopt"
    forksrvSocketPath := c.forksrvSocketPath ++ "_" ++ "sanopt"
    trackPath := c.trackPath ++ "_" ++ "sanopt"
    usesAsan := true
    memLimit := 0 }

/-- The `Drop` impl of `CommandOpt` in src/fuzzer/src/command.rs clears
the tmpfs scratch directory exactly when `is_raw` is set. -/
def dropClearsTmpfs (c : CommandOpt) : Bool := c.isRaw

/-- A concrete raw command profile as `CommandOpt::new` builds it
(`id = 0`, `is_raw = true`), used as the evaluation point for the
command-profile theorems. -/
def rawProfile : CommandOpt :=
  { mode := .llvm
    id := 0
    main := ("/w/target", ["-d", "@@"])
    track := ("/w/target.track", ["-d", "@@"])
    tmpDir := "/out/tmp"
    outFile := "/out/tmp/cur_input"
    forksrvSocketPath := "/out/tmp/forksrv_socket"
    trackPath := "/out/tmp/track"
    isStdin := false
    searchMethod := 0
    memLimit := 200
    timeLimit := 1
    isRaw := true
    usesAsan := false
    ldLibrary := "/usr/lib"
    enableAfl := true
    enableExploitation := false
    directedTargetsFile := "targets.json"
    sanoptBin := none
    directedOnly := false }

/-- C3 counterexample: the claim says `specify(id)` changes no field
other than the three scratch paths.  On the concrete raw profile,
`specify 1` also changes `id` (0 to 1), clears `is_raw`, and rewrites
the `@@` occurrences in both argv lists. -/
theorem C3_specify_changes_more_than_paths :
    (rawProfile.specify 1).id ≠ rawProfile.id
      ∧ (rawProfile.specify 1).isRaw ≠ rawProfile.isRaw
      ∧ (rawProfile.specify 1).main.2 ≠ rawProfile.main.2
      ∧ (rawProfile.specify 1).track.2 ≠ rawProfile.track.2 := by
  refine ⟨by decide, by decide, ?_, ?_⟩ <;> decide

/-- C3 amended: `specify(id)` suffixes each of the three scratch paths
with `_id`; besides those it changes exactly the worker id (set to
`id`), the ownership flag `is_raw` (cleared), and — when not in stdin
mode — the `@@` occurrences in the main and track argv, which become
the new input path; every other field is unchanged. -/
theorem C3_specify_paths_and_frame (c : CommandOpt) (id : Nat) :
    ((c.specify id).outFile = c.outFile ++ "_" ++ toString id
      ∧ (c.specify id).forksrvSocketPath = c.forksrvSocketPath ++ "_" ++ toString id
      ∧ (c.specify id).trackPath = c.trackPath ++ "_" ++ toString id)
    ∧ ((c.specify id).id = id
      ∧ (c.specify id).isRaw = false
      ∧ (c.specify id).main
          = (c.main.1, if c.isStdin then c.main.2
              else replaceInputArg c.main.2 (c.outFile ++ "_" ++ toString id))
      ∧ (c.specify id).track
          = (c.track.1, if c.isStdin then c.track.2
              else replaceInputArg c.track.2 (c.outFile ++ "_" ++ toString id)))
    ∧ ((c.specify id).mode = c.mode
      ∧ (c.specify id).tmpDir = c.tmpDir
      ∧ (c.specify id).isStdin = c.isStdin
      ∧ (c.specify id).searchMethod = c.searchMethod
      ∧ (c.specify id).memLimit = c.memLimit
      ∧ (c.specify id).timeLimit = c.timeLimit
      ∧ (c.specify id).usesAsan = c.usesAsan
      ∧ (c.specify id).ldLibrary = c.ldLibrary
      ∧ (c.specify id).enableAfl = c.enableAfl
      ∧ (c.specify id).enableExploitation = c.enableExploitation
      ∧ (c.specify id).directedTargetsFile = c.directedTargetsFile
      ∧ (c.specify id).sanoptBin = c.sanoptBin
      ∧ (c.specify id).directedOnly = c.directedOnly) :=
  ⟨⟨rfl, rfl, rfl⟩,
   ⟨rfl, rfl, rfl, rfl⟩,
   rfl, rfl, rfl, rfl, rfl, rfl, rfl, rfl, rfl, rfl, rfl, rfl, rfl⟩

/-- C4 counterexample: the claim says every clone produced by
`specify` or `sanopt` is non-owning.  `sanopt` of the raw profile keeps
`is_raw = true`, so its drop clears the tmpfs scratch directory too —
two owners. -/
theorem C4_sanopt_of_raw_still_owns :
    dropClearsTmpfs rawProfile.sanopt = true
      ∧ dropClearsTmpfs rawProfile = true := by decide

/-- C4 amended: `specify` clones are always non-owning (their drop
leaves the tmpfs scratch directory intact), while `sanopt` preserves
the receiver's ownership flag unchanged; in particular a `sanopt` taken
from any `specify` clone — the only way the fuzzer builds one — is
non-owning, but `sanopt` of the raw profile itself would own. -/
theorem C4_ownership_flags (c : CommandOpt) (id : Nat) :
    dropClearsTmpfs (c.specify id) = false
      ∧ dropClearsTmpfs c.sanopt = dropClearsTmpfs c
      ∧ dropClearsTmpfs (c.specify id).sanopt = false :=
  ⟨rfl, rfl, rfl⟩

/-! ## Fork-server client (src/fuzzer/src/executor/forksrv.rs) -/

/-- Side effects `Forksrv::run` performs on the timeout path. -/
inductive SrvAction where
  | killSent (pid : Int)
  | drained
  deriving DecidableEq, Repr

/-- One request/response exchange as seen by `Forksrv::run`:
whether writing the 4-byte request marker succeeded, the pid frame
(`none` is a socket read error; a 4-byte read always parses, so a
received frame is the parsed little-endian i32), and the status frame
(`none` is a read failure — with the per-operation read timeout
installed in `Forksrv::new`, the timeout; `some s` is the received
wait-status as its u32 bit pattern). -/
structure SocketRun where
  writeOk : Bool
  pidFrame : Option Int
  statusFrame : Option Nat
  deriving DecidableEq, Repr

/-- `libc::WIFSIGNALED` on the wait-status bit pattern: the low seven
bits are neither 0 (exited) nor 0x7f (stopped). -/
def wifsignaled (s : Nat) : Bool := s % 128 != 0 && s % 128 != 127

/-- `libc::WEXITSTATUS` on the wait-status bit pattern: bits 8..16. -/
def wexitstatus (s : Nat) : Nat := s / 256 % 256

/-- `Forksrv::run` from src/fuzzer/src/executor/forksrv.rs.
`usesAsan` is the server's flag; `msanErrorCode` abstracts
`defs::MSAN_ERROR_CODE` of angora_common, which is not among the given
sources.  Returns the classified status and the actions taken on the
socket (SIGKILL to the reported pid and the residual-byte drain loop
happen only on the status-frame read failure path). -/
def forksrvRun (usesAsan : Bool) (msanErrorCode : Nat) (r : SocketRun) :
    StatusType × List SrvAction :=
  if !r.writeOk then (.error, [])
  else
    match r.pidFrame with
    | none => (.error, [])
    | some childPid =>
        if childPid ≤ 0 then (.error, [])
        else
          match r.statusFrame with
          | none => (.timeout, [.killSent childPid, .drained])
          | some s =>
              if wifsignaled s || (usesAsan && wexitstatus s == msanErrorCode) then
                (.crash, [])
              else
                (.normal, [])

/-- C5: `Forksrv::run` classifies every requested run exactly as
claimed — a write failure on the request marker or a read failure on
the pid frame yields Error, as does a reported pid ≤ 0; a read timeout
on the status frame yields Timeout after sending SIGKILL to the
reported pid and draining the socket; a received status with
WIFSIGNALED, or ASAN enabled and WEXITSTATUS equal to MSAN_ERROR_CODE,
yields Crash; any other received status yields Normal. -/
theorem C5_forksrv_run_classification (usesAsan : Bool) (msanErrorCode : Nat)
    (r : SocketRun) :
    (r.writeOk = false → forksrvRun usesAsan msanErrorCode r = (.error, []))
    ∧ (r.writeOk = true → r.pidFrame = none →
        forksrvRun usesAsan msanErrorCode r = (.error, []))
    ∧ (∀ p : Int, r.writeOk = true → r.pidFrame = some p → p ≤ 0 →
        forksrvRun usesAsan msanErrorCode r = (.error, []))
    ∧ (∀ p : Int, r.writeOk = true → r.pidFrame = some p → 0 < p →
        r.statusFrame = none →
        forksrvRun usesAsan msanErrorCode r
          = (.timeout, [.killSent p, .drained]))
    ∧ (∀ p : Int, ∀ s : Nat, r.writeOk = true → r.pidFrame = some p → 0 < p →
        r.statusFrame = some s →
        (wifsignaled s || (usesAsan && wexitstatus s == msanErrorCode)) = true →
        forksrvRun usesAsan msanErrorCode r = (.crash, []))
    ∧ (∀ p : Int, ∀ s : Nat, r.writeOk = true → r.pidFrame = some p → 0 < p →
        r.statusFrame = some s →
        (wifsignaled s || (usesAsan && wexitstatus s == msanErrorCode)) = false →
        forksrvRun usesAsan msanErrorCode r = (.normal, [])) := by
  obtain ⟨w, pf, sf⟩ := r
  refine ⟨?_, ?_, ?_, ?_, ?_, ?_⟩
  · rintro rfl; rfl
  · rintro rfl rfl; rfl
  · rintro p rfl rfl hp
    simp only [forksrvRun, Bool.not_true, Bool.false_eq_true, if_false, if_pos hp]
  · rintro p rfl rfl hp rfl
    have hnp : ¬ p ≤ 0 := not_le.mpr hp
    simp only [forksrvRun, Bool.not_true, Bool.false_eq_true, if_false, if_neg hnp]
  · rintro p s rfl rfl hp rfl hcond
    have hnp : ¬ p ≤ 0 := not_le.mpr hp
    simp only [forksrvRun, Bool.not_true, Bool.false_eq_true, if_false, if_neg hnp,
      hcond, if_true]
  · rintro p s rfl rfl hp rfl hcond
    have hnp : ¬ p ≤ 0 := not_le.mpr hp
    simp only [forksrvRun, Bool.not_true, Bool.false_eq_true, if_false, if_neg hnp,
      hcond, Bool.false_eq_true]

/-- C5 witness: the theorem applied on the timeout path — request
written, pid 7 reported, status-frame read timed out — classifies the
run as Timeout with a SIGKILL to pid 7 and a drain; and on a signalled
status (pattern 11, SIGSEGV) it classifies Crash. -/
theorem C5_forksrv_run_classification_witness :
    forksrvRun false 86 ⟨true, some 7, none⟩
      = (.timeout, [.killSent 7, .drained])
    ∧ forksrvRun false 86 ⟨true, some 7, some 11⟩ = (.crash, []) :=
  ⟨(C5_forksrv_run_classification false 86 ⟨true, some 7, none⟩).2.2.2.1 7 rfl rfl
      (by decide) rfl,
   (C5_forksrv_run_classification false 86 ⟨true, some 7, some 11⟩).2.2.2.2.1 7 11 rfl rfl
      (by decide) rfl (by decide)⟩

/-! ## Depot priority queue (src/fuzzer/src/depot/depot.rs) -/

/-- Modelled from the spec: a queue priority encodes
`(op_class, distance, age)` in a total order where lower rank wins, and
the frozen `done` sentinel sorts below every rank (the priority module
is not among the given sources). -/
inductive QPriority where
  | rank (n : Nat)
  | done
  deriving DecidableEq, Repr

def QPriority.isDone : QPriority → Bool
  | .done => true
  | .rank _ => false

/-- `p.better q`: `p` sorts at or above `q` in the priority queue (the
crate's max-queue peeks the `better`-greatest entry). -/
def QPriority.better : QPriority → QPriority → Bool
  | .done, .done => true
  | .done, .rank _ => false
  | .rank _, .done => true
  | .rank a, .rank b => decide (a ≤ b)

theorem QPriority.better_refl (p : QPriority) : p.better p = true := by
  cases p <;> simp [QPriority.better]

theorem QPriority.better_total (p q : QPriority) :
    p.better q = true ∨ q.better p = true := by
  cases p <;> cases q <;> first
  | (simp [QPriority.better]; omega)
  | simp [QPriority.better]

theorem QPriority.better_trans {p q r : QPriority} (h₁ : p.better q = true)
    (h₂ : q.better r = true) : p.better r = true := by
  cases p <;> cases q <;> cases r <;> first
  | (simp [QPriority.better] at *; omega)
  | simp [QPriority.better] at *

/-- One step of the priority-queue peek: keep the `better` of the
accumulator and the next entry (first seen wins ties). -/
def pickBetter (acc : Option (CondStmt × QPriority)) (x : CondStmt × QPriority) :
    Option (CondStmt × QPriority) :=
  match acc with
  | none => some x
  | some a => if a.2.better x.2 then some a else some x

/-- The `PriorityQueue::peek` of the crate used by the depot: an entry
of greatest priority, or none when empty. -/
def peekQueue (q : List (CondStmt × QPriority)) : Option (CondStmt × QPriority) :=
  q.foldl pickBetter none

theorem foldl_pickBetter_some (l : List (CondStmt × QPriority))
    (a : CondStmt × QPriority) : ∃ e, l.foldl pickBetter (some a) = some e := by
  induction l generalizing a with
  | nil => exact ⟨a, rfl⟩
  | cons y t ih =>
      simp only [List.foldl_cons, pickBetter]
      split <;> exact ih _

theorem foldl_pickBetter_mem (l : List (CondStmt × QPriority))
    (a e : CondStmt × QPriority) (h : l.foldl pickBetter (some a) = some e) :
    e = a ∨ e ∈ l := by
  induction l generalizing a with
  | nil => exact Or.inl (Option.some.inj h).symm
  | cons y t ih =>
      simp only [List.foldl_cons, pickBetter] at h
      split at h
      · rcases ih _ h with h' | h'
        · exact Or.inl h'
        · exact Or.inr (List.mem_cons_of_mem y h')
      · rcases ih _ h with h' | h'
        · exact Or.inr (by rw [h']; exact List.mem_cons_self y t)
        · exact Or.inr (List.mem_cons_of_mem y h')

theorem foldl_pickBetter_best (l : List (CondStmt × QPriority))
    (a e : CondStmt × QPriority) (h : l.foldl pickBetter (some a) = some e) :
    e.2.better a.2 = true ∧ ∀ x ∈ l, e.2.better x.2 = true := by
  induction l generalizing a with
  | nil =>
      cases Option.some.inj h
      exact ⟨QPriority.better_refl _, by simp⟩
  | cons y t ih =>
      simp only [List.foldl_cons, pickBetter] at h
      split at h
      · rename_i hb
        obtain ⟨h₁, h₂⟩ := ih _ h
        refine ⟨h₁, ?_⟩
        intro x hx
        rcases List.mem_cons.mp hx with rfl | hx
        · exact QPriority.better_trans h₁ hb
        · exact h₂ x hx
      · rename_i hb
        obtain ⟨h₁, h₂⟩ := ih _ h
        have hya : y.2.better a.2 = true := by
          rcases QPriority.better_total a.2 y.2 with h' | h'
          · exact absurd h' hb
          · exact h'
        refine ⟨QPriority.better_trans h₁ hya, ?_⟩
        intro x hx
        rcases List.mem_cons.mp hx with rfl | hx
        · exact h₁
        · exact h₂ x hx

theorem peekQueue_spec (q : List (CondStmt × QPriority)) (e : CondStmt × QPriority)
    (h : peekQueue q = some e) :
    e ∈ q ∧ ∀ x ∈ q, e.2.better x.2 = true := by
  cases q with
  | nil => simp [peekQueue] at h
  | cons y t =>
      have h' : t.foldl pickBetter (some y) = some e := h
      constructor
      · rcases foldl_pickBetter_mem t y e h' with h'' | hm
        · rw [h'']; exact List.mem_cons_self y t
        · exact List.mem_cons_of_mem y hm
      · obtain ⟨h₁, h₂⟩ := foldl_pickBetter_best t y e h'
        intro x hx
        rcases List.mem_cons.mp hx with rfl | hx
        · exact h₁
        · exact h₂ x hx

theorem peekQueue_eq_none_iff (q : List (CondStmt × QPriority)) :
    peekQueue q = none ↔ q = [] := by
  cases q with
  | nil => simp [peekQueue]
  | cons y t =>
      obtain ⟨e, he⟩ := foldl_pickBetter_some t y
      constructor
      · intro h
        have h' : t.foldl pickBetter (some y) = none := h
        rw [he] at h'
        cases h'
      · intro h
        cases h

/-- `PriorityQueue::change_priority` keyed by the CondStmt identity:
the entry whose item matches `c` gets priority `p`. -/
def changePriority (q : List (CondStmt × QPriority)) (c : CondStmt) (p : QPriority) :
    List (CondStmt × QPriority) :=
  q.map fun e => if sameId e.1 c then (e.1, p) else e

/-- `Depot::get_entry` from src/fuzzer/src/depot/depot.rs: peek the
queue; when the peeked entry's priority is not done, demote it in place
via `QPriority::inc` of the condition's op.  `inc` abstracts
`QPriority::inc`, whose module is not among the given sources.  Returns
the peeked `(cond, prio)` (cloned before the demotion) and the updated
queue. -/
def getEntry (inc : QPriority → Nat → QPriority)
    (q : List (CondStmt × QPriority)) :
    Option (CondStmt × QPriority) × List (CondStmt × QPriority) :=
  match peekQueue q with
  | none => (none, q)
  | some x =>
      if x.2.isDone then (some x, q)
      else (some x, changePriority q x.1 (inc x.2 x.1.base.op))

/-- A concrete condition statement used as an evaluation point. -/
def condA : CondStmt :=
  { base := { cmpid := 11, context := 5, order := 0, func := 3, condition := 0,
              op := 2, arg1 := 7, arg2 := 9, lastCallsite := 0 }
    offsets := []
    vars := [1, 2]
    speed := 100
    cnt := 0
    state := .exploring
    isDesirable := true
    isConsistent := true
    isTarget := false }

/-- A demoting priority bump standing in for `QPriority::inc`. -/
def incSample (p : QPriority) (op : Nat) : QPriority :=
  match p with
  | .rank n => .rank (n + op + 1)
  | .done => .done

/-- C2 counterexample: the claim says `get_entry` never returns an
entry whose priority is the done sentinel.  On a queue whose only (and
hence top) entry is frozen at the done sentinel, `get_entry` returns
that entry rather than none. -/
theorem C2_returns_done_sentinel_entry :
    (getEntry incSample [(condA, QPriority.done)]).1
      = some (condA, QPriority.done)
    ∧ QPriority.done.isDone = true := ⟨rfl, rfl⟩

/-- C2 amended: `get_entry` returns none exactly on the empty queue;
otherwise it returns a greatest-priority entry — which is the done
sentinel only when every live entry is done — and demotes the returned
entry's priority in place via `QPriority::inc` of the condition's op
precisely when that entry is not done (a done top entry is returned
with the queue unchanged). -/
theorem C2_get_entry_characterisation (inc : QPriority → Nat → QPriority)
    (q : List (CondStmt × QPriority)) :
    ((getEntry inc q).1 = none ↔ q = [])
    ∧ ∀ e, (getEntry inc q).1 = some e →
        e ∈ q
        ∧ q.all (fun x => e.2.better x.2) = true
        ∧ (getEntry inc q).2
            = (if e.2.isDone then q else changePriority q e.1 (inc e.2 e.1.base.op)) := by
  cases hpq : peekQueue q with
  | none =>
      have hnone : (getEntry inc q).1 = none := by simp [getEntry, hpq]
      refine ⟨?_, ?_⟩
      · rw [hnone]
        simp [(peekQueue_eq_none_iff q).mp hpq]
      · intro e h
        rw [hnone] at h
        cases h
  | some x =>
      obtain ⟨hmem, hbest⟩ := peekQueue_spec q x hpq
      have h1 : (getEntry inc q).1 = some x := by
        by_cases hd : x.2.isDone = true <;> simp [getEntry, hpq, hd]
      have hne : q ≠ [] := by
        intro hq
        subst hq
        cases hmem
      refine ⟨?_, ?_⟩
      · rw [h1]
        simp [hne]
      · intro e h
        have hx : x = e := Option.some.inj (h1.symm.trans h)
        subst hx
        refine ⟨hmem, ?_, ?_⟩
        · exact List.all_eq_true.mpr fun x' hx' => hbest x' hx'
        · by_cases hd : x.2.isDone = true <;> simp [getEntry, hpq, hd]

/-- C2 witness: the amended theorem applied to the empty queue (none
returned) and to the singleton live queue `[(condA, rank 2)]`, whose
top entry is returned some, shown in the queue and best, and demoted
via `incSample`. -/
theorem C2_get_entry_characterisation_witness :
    ((getEntry incSample ([] : List (CondStmt × QPriority))).1 = none
      ↔ ([] : List (CondStmt × QPriority)) = [])
    ∧ ((getEntry incSample [(condA, QPriority.rank 2)]).1 = none
        ↔ [(condA, QPriority.rank 2)] = [])
    ∧ (condA, QPriority.rank 2) ∈ [(condA, QPriority.rank 2)]
    ∧ [(condA, QPriority.rank 2)].all
        (fun x => (condA, QPriority.rank 2).2.better x.2) = true
    ∧ (getEntry incSample [(condA, QPriority.rank 2)]).2
        = (if (condA, QPriority.rank 2).2.isDone then [(condA, QPriority.rank 2)]
           else changePriority [(condA, QPriority.rank 2)] (condA, QPriority.rank 2).1
             (incSample (condA, QPriority.rank 2).2 (condA, QPriority.rank 2).1.base.op)) :=
  ⟨(C2_get_entry_characterisation incSample []).1,
   (C2_get_entry_characterisation incSample [(condA, QPriority.rank 2)]).1,
   ((C2_get_entry_characterisation incSample [(condA, QPriority.rank 2)]).2
      (condA, QPriority.rank 2) rfl).1,
   ((C2_get_entry_characterisation incSample [(condA, QPriority.rank 2)]).2
      (condA, QPriority.rank 2) rfl).2.1,
   ((C2_get_entry_characterisation incSample [(condA, QPriority.rank 2)]).2
      (condA, QPriority.rank 2) rfl).2.2⟩

/-- One iteration of the `for cond in conds` loop body of
`Depot::add_entries` (src/fuzzer/src/depot/depot.rs).  `score`
abstracts `ControlFlowGraph::score_for_cmp_inp` (the dyncfg module is
not among the given sources), `initDistance` abstracts
`QPriority::init_distance`, `preferFast` the `config::PREFER_FAST_COND`
flag, and `origin` the `target_cond` pair `(cmpid, func)`.  The queue
is the association list, the second component the branch-coverage
ledger. -/
def addEntriesStep (preferFast : Bool) (score : Nat → List Nat → Nat)
    (initDistance : Nat → Nat → QPriority) (origin : Nat × Nat)
    (st : List (CondStmt × QPriority) × List (Nat × Nat × Nat × Nat))
    (cond : CondStmt) :
    List (CondStmt × QPriority) × List (Nat × Nat × Nat × Nat) :=
  let q := st.1
  let bc := st.2
  if cond.isDesirable then
    let distance := score cond.base.cmpid cond.vars
    match q.find? (fun e => sameId e.1 cond) with
    | some v =>
        if v.1.isDone then (q, bc)
        else if v.1.base.condition != cond.base.condition then
          (q.map (fun e =>
             if sameId e.1 cond then (e.1.markAsDone, QPriority.done) else e),
           bc ++ [(origin.1, origin.2, v.1.base.cmpid, v.1.base.func)])
        else if preferFast && cond.speed < v.1.speed then
          (q.map (fun e =>
             if sameId e.1 cond then (cond, initDistance v.1.base.op distance) else e),
           bc)
        else (q, bc)
    | none => (q ++ [(cond, initDistance cond.base.op distance)], bc)
  else (q, bc)

/-- `Depot::add_entries`: fold the loop body over the incoming
conditions. -/
def addEntries (preferFast : Bool) (score : Nat → List Nat → Nat)
    (initDistance : Nat → Nat → QPriority) (origin : Nat × Nat)
    (conds : List CondStmt)
    (st : List (CondStmt × QPriority) × List (Nat × Nat × Nat × Nat)) :
    List (CondStmt × QPriority) × List (Nat × Nat × Nat × Nat) :=
  conds.foldl (addEntriesStep preferFast score initDistance origin) st

/-- C9: in `add_entries`, an incoming desirable condition that matches
an existing, not-done queue entry whose stored `condition` value
differs has the stored entry marked done with its priority set to the
done sentinel, and `(origin.cmpid, origin.func, stored.cmpid,
stored.func)` appended to the branch-coverage ledger. -/
theorem C9_add_entries_opposite_branch (preferFast : Bool)
    (score : Nat → List Nat → Nat) (initDistance : Nat → Nat → QPriority)
    (origin : Nat × Nat) (q : List (CondStmt × QPriority))
    (bc : List (Nat × Nat × Nat × Nat)) (cond : CondStmt) (v : CondStmt × QPriority)
    (hdes : cond.isDesirable = true)
    (hfind : q.find? (fun e => sameId e.1 cond) = some v)
    (hnd : v.1.isDone = false)
    (hdiff : v.1.base.condition ≠ cond.base.condition) :
    addEntries preferFast score initDistance origin [cond] (q, bc)
      = (q.map (fun e =>
           if sameId e.1 cond then (e.1.markAsDone, QPriority.done) else e),
         bc ++ [(origin.1, origin.2, v.1.base.cmpid, v.1.base.func)]) := by
  have hbne : (v.1.base.condition != cond.base.condition) = true := by
    simpa using hdiff
  simp [addEntries, addEntriesStep, hdes, hfind, hnd, hbne]

/-- A stored condition (`condition = 0`) and an incoming twin with the
opposite outcome (`condition = 1`), sharing `(cmpid, context, order)`,
for the add_entries witness. -/
def condOpposite : CondStmt :=
  { condA with base := { condA.base with condition := 1, arg1 := 3 } }

/-- C9 witness: the theorem applied to the singleton queue holding
`condA` at rank 3 and the incoming opposite-outcome twin: the stored
entry is frozen done and the ledger records
`(9, 8, condA.cmpid, condA.func)`. -/
theorem C9_add_entries_opposite_branch_witness :
    addEntries true (fun _ _ => 0) (fun _ _ => QPriority.rank 0) (9, 8)
        [condOpposite] ([(condA, QPriority.rank 3)], [])
      = ([(condA, QPriority.rank 3)].map (fun e =>
           if sameId e.1 condOpposite then (e.1.markAsDone, QPriority.done) else e),
         [] ++ [(9, 8, condA.base.cmpid, condA.base.func)]) :=
  C9_add_entries_opposite_branch true (fun _ _ => 0) (fun _ _ => QPriority.rank 0)
    (9, 8) [(condA, QPriority.rank 3)] [] condOpposite (condA, QPriority.rank 3)
    rfl (by decide) rfl (by decide)

/-! ## Executor status checks (src/fuzzer/src/executor/executor.rs) -/

/-- The executor-local mutable fields read and written by the status
checks of src/fuzzer/src/executor/executor.rs: the consecutive-timeout
counter, the invariable-output counter, the previous run's distance
output `last_f`, and the local execution counter. -/
structure ExecMeta where
  tmoutCnt : Nat
  invarCnt : Nat
  lastF : Nat
  numExec : Nat
  deriving DecidableEq, Repr

/-- `Executor::check_explored`: a zero distance output on a not-yet
done condition marks it done and requests a skip (the source's
`status` argument is unused there). -/
def checkExplored (cond : CondStmt) (output : Nat) : Bool × CondStmt :=
  if output == 0 && !cond.isDone then (true, cond.markAsDone) else (false, cond)

/-- `Executor::check_invariable`: when the output equals the previous
run's output the invariable counter grows, and on reaching
`MAX_INVARIABLE_NUM` (`maxInvar`, a constant of the out-of-scope
angora_common config) the condition stops being desirable and — unless
its state is deterministic or one-byte — a skip is requested; a
differing output resets the counter; `last_f` always becomes the
current output. -/
def checkInvariable (maxInvar : Nat) (output : Nat) (cond : CondStmt)
    (m : ExecMeta) : Bool × CondStmt × ExecMeta :=
  if output = m.lastF then
    let cnt := m.invarCnt + 1
    if maxInvar ≤ cnt then
      let cond' := { cond with isDesirable := false }
      ((!cond'.state.isDet && !cond'.state.isOneByte), cond',
        { m with invarCnt := cnt, lastF := output })
    else
      (false, cond, { m with invarCnt := cnt, lastF := output })
  else
    (false, cond, { m with invarCnt := 0, lastF := output })

/-- `Executor::check_consistent`: an `UNREACHABLE` output on the very
first execution of a first-time condition still in its initial state
marks the condition inconsistent. -/
def checkConsistent (output : Nat) (cond : CondStmt) (m : ExecMeta) : CondStmt :=
  if output == UNREACHABLE && cond.isFirstTime && (m.numExec == 1)
      && cond.state.isInitial then
    { cond with isConsistent := false }
  else cond

/-- `Executor::check_timeout`: an Error status (after the fork server
is rebound) is promoted to Timeout; on a Timeout the consecutive
timeout counter grows and, on reaching `TMOUT_SKIP` (`tmoutSkip`, a
constant of the out-of-scope angora_common config), the condition
transitions to the Timeout state, the returned status becomes Skip and
the counter resets; any other status resets the counter. -/
def checkTimeout (tmoutSkip : Nat) (status : StatusType) (cond : CondStmt)
    (m : ExecMeta) : StatusType × CondStmt × ExecMeta :=
  let ret := if status = .error then StatusType.timeout else status
  if ret = .timeout then
    let cnt := m.tmoutCnt + 1
    if tmoutSkip ≤ cnt then
      (.skip, cond.toTimeout, { m with tmoutCnt := 0 })
    else
      (.timeout, cond, { m with tmoutCnt := cnt })
  else
    (ret, cond, { m with tmoutCnt := 0 })

/-- `Executor::run_with_cond` with the process execution abstracted:
`status0` is the status `run_inner` classified and `output` the
distance `f` read back from the ShmConds slot.  The source applies the
explored, invariable and consistent checks, calls `do_if_has_new`
(which only saves inputs and feeds the depot — it touches neither the
status nor the condition), applies the timeout check, and finally
forces Skip when the explored or the invariable check requested it. -/
def runWithCond (maxInvar tmoutSkip : Nat) (status0 : StatusType)
    (output : Nat) (cond : CondStmt) (m : ExecMeta) :
    StatusType × CondStmt × ExecMeta :=
  let m1 := { m with numExec := m.numExec + 1 }
  let e := checkExplored cond output
  let inv := checkInvariable maxInvar output e.2 m1
  let cond3 := checkConsistent output inv.2.1 inv.2.2
  let t := checkTimeout tmoutSkip status0 cond3 inv.2.2
  (if e.1 || inv.1 then .skip else t.1, t.2)

/-- The condition/counter state after `j` consecutive runs on the same
condition, each classified Timeout, starting from a zero counter; each
step is `check_timeout` (the fields of ExecMeta other than the timeout
counter do not influence it). -/
def iterTimeout (tmoutSkip : Nat) (cond : CondStmt) : Nat → CondStmt × Nat
  | 0 => (cond, 0)
  | j + 1 =>
      let p := iterTimeout tmoutSkip cond j
      let r := checkTimeout tmoutSkip .timeout p.1 ⟨p.2, 0, 0, 0⟩
      (r.2.1, r.2.2.tmoutCnt)

/-- C6: starting from a zero counter, the first `TMOUT_SKIP - 1`
Timeout-classified runs leave the condition untouched, return Timeout
and count up; the `TMOUT_SKIP`-th consecutive Timeout transitions the
condition to the Timeout state, converts the returned status into
Skip, and resets the counter; and any non-Timeout, non-Error status
resets the counter leaving status and condition unchanged. -/
theorem C6_persistent_timeout_skip (k : Nat) (cond : CondStmt) (hk : 1 ≤ k) :
    (∀ j, j < k → iterTimeout k cond j = (cond, j))
    ∧ (∀ j, j + 1 < k →
        (checkTimeout k .timeout (iterTimeout k cond j).1
          ⟨(iterTimeout k cond j).2, 0, 0, 0⟩).1 = .timeout)
    ∧ (checkTimeout k .timeout (iterTimeout k cond (k - 1)).1
        ⟨(iterTimeout k cond (k - 1)).2, 0, 0, 0⟩
        = (.skip, cond.toTimeout, ⟨0, 0, 0, 0⟩))
    ∧ (∀ s c m, s ≠ StatusType.timeout → s ≠ StatusType.error →
        checkTimeout k s c m = (s, c, { m with tmoutCnt := 0 })) := by
  have hiter : ∀ j, j < k → iterTimeout k cond j = (cond, j) := by
    intro j
    induction j with
    | zero => intro _; rfl
    | succ j ih =>
        intro hj
        have hj' : j < k := Nat.lt_of_succ_lt hj
        have hlt : ¬ k ≤ j + 1 := by omega
        simp [iterTimeout, ih hj', checkTimeout, hlt]
  refine ⟨hiter, ?_, ?_, ?_⟩
  · intro j hj
    have hj' : j < k := by omega
    have hlt : ¬ k ≤ j + 1 := by omega
    rw [hiter j hj']
    simp [checkTimeout, hlt]
  · have hk1 : k - 1 < k := by omega
    rw [hiter _ hk1]
    have hge : k ≤ k - 1 + 1 := by omega
    simp [checkTimeout, hge]
  · intro s c m hs he
    cases s
    · simp [checkTimeout]
    · exact absurd rfl hs
    · simp [checkTimeout]
    · simp [checkTimeout]
    · exact absurd rfl he

/-- C6 witness: with `TMOUT_SKIP = 3`, two consecutive timeouts leave
`condA` untouched with the counter at 2; the third converts to Skip,
moves `condA` to the Timeout state and resets the counter; a Normal
run resets the counter. -/
theorem C6_persistent_timeout_skip_witness :
    iterTimeout 3 condA 2 = (condA, 2)
    ∧ (checkTimeout 3 .timeout (iterTimeout 3 condA 2).1
        ⟨(iterTimeout 3 condA 2).2, 0, 0, 0⟩
        = (.skip, condA.toTimeout, ⟨0, 0, 0, 0⟩))
    ∧ checkTimeout 3 .normal condA ⟨2, 0, 0, 0⟩
        = (.normal, condA, ⟨0, 0, 0, 0⟩) := by
  have h := C6_persistent_timeout_skip 3 condA (by decide)
  exact ⟨h.1 2 (by decide), h.2.2.1,
    h.2.2.2 .normal condA ⟨2, 0, 0, 0⟩ (by decide) (by decide)⟩

/-- The `run_init` bump of the local execution counter. -/
def rwcMeta1 (m : ExecMeta) : ExecMeta := { m with numExec := m.numExec + 1 }

/-- The invariable check exactly as `run_with_cond` wires it: on the
explored-check result, after the `run_init` bump. -/
def rwcInv (maxInvar output : Nat) (cond : CondStmt) (m : ExecMeta) :
    Bool × CondStmt × ExecMeta :=
  checkInvariable maxInvar output (checkExplored cond output).2 (rwcMeta1 m)

/-- The timeout check exactly as `run_with_cond` wires it: on the
consistent-checked condition and the invariable-updated meta. -/
def rwcTimeout (maxInvar tmoutSkip : Nat) (status0 : StatusType)
    (output : Nat) (cond : CondStmt) (m : ExecMeta) :
    StatusType × CondStmt × ExecMeta :=
  checkTimeout tmoutSkip status0
    (checkConsistent output (rwcInv maxInvar output cond m).2.1
      (rwcInv maxInvar output cond m).2.2)
    (rwcInv maxInvar output cond m).2.2

theorem checkConsistent_isDesirable (output : Nat) (cond : CondStmt)
    (m : ExecMeta) : (checkConsistent output cond m).isDesirable = cond.isDesirable := by
  unfold checkConsistent
  split <;> rfl

theorem checkTimeout_isDesirable (k : Nat) (s : StatusType) (cond : CondStmt)
    (m : ExecMeta) : (checkTimeout k s cond m).2.1.isDesirable = cond.isDesirable := by
  simp only [checkTimeout]
  split_ifs <;> rfl

/-- A deterministic-mode, not-done, desirable condition. -/
def condDet : CondStmt := { condA with state := .deterministic }

/-- C7 counterexample: the claim says that when the invariable trigger
fires on a condition in deterministic mode, the run is not skipped.
With `MAX_INVARIABLE_NUM = 2`, take `condDet` (deterministic state,
not done) and a meta whose previous output is 0 with the invariable
counter at 1: the current output 0 equals the previous output and the
counter reaches the threshold (`2 ≤ 1 + 1`), the state is
deterministic — yet `run_with_cond` returns Skip, because the explored
check (output 0 on a not-done condition) requests the skip regardless
of deterministic mode. -/
theorem C7_det_mode_still_skipped :
    condDet.state.isDet = true
    ∧ condDet.isDone = false
    ∧ (0 : Nat) = (⟨0, 1, 0, 0⟩ : ExecMeta).lastF
    ∧ 2 ≤ (⟨0, 1, 0, 0⟩ : ExecMeta).invarCnt + 1
    ∧ (runWithCond 2 3 .normal 0 condDet ⟨0, 1, 0, 0⟩).1 = .skip := by decide

/-- C7 amended: when the observed output equals the previous run's
output and the invariable counter reaches `MAX_INVARIABLE_NUM`, the
condition returned by `run_with_cond` has `is_desirable = false`, and
the invariable check requests a skip exactly when the
(explored-updated) condition's state is neither deterministic nor
one-byte; the status returned to the caller is Skip if and only if the
explored check or the invariable check requested a skip or the
persistent-timeout conversion itself produced Skip — so in
deterministic/one-byte mode the invariable check alone never causes a
skip, but the run can still be skipped by the other checks. -/
theorem C7_invariable_marks_undesirable (maxInvar tmoutSkip : Nat)
    (status0 : StatusType) (output : Nat) (cond : CondStmt) (m : ExecMeta)
    (hEq : output = m.lastF) (hTrig : maxInvar ≤ m.invarCnt + 1) :
    (runWithCond maxInvar tmoutSkip status0 output cond m).2.1.isDesirable = false
    ∧ (rwcInv maxInvar output cond m).1
        = (!(checkExplored cond output).2.state.isDet
            && !(checkExplored cond output).2.state.isOneByte)
    ∧ ((runWithCond maxInvar tmoutSkip status0 output cond m).1 = .skip
        ↔ ((checkExplored cond output).1 = true
            ∨ (rwcInv maxInvar output cond m).1 = true
            ∨ (rwcTimeout maxInvar tmoutSkip status0 output cond m).1 = .skip)) := by
  have hEq1 : output = (rwcMeta1 m).lastF := hEq
  have hTrig1 : maxInvar ≤ (rwcMeta1 m).invarCnt + 1 := hTrig
  have hinv : rwcInv maxInvar output cond m
      = ((!(checkExplored cond output).2.state.isDet
            && !(checkExplored cond output).2.state.isOneByte),
         { (checkExplored cond output).2 with isDesirable := false },
         { rwcMeta1 m with invarCnt := (rwcMeta1 m).invarCnt + 1, lastF := output }) := by
    rw [rwcInv, checkInvariable, if_pos hEq1, if_pos hTrig1]
  refine ⟨?_, ?_, ?_⟩
  · show (checkTimeout tmoutSkip status0
        (checkConsistent output (rwcInv maxInvar output cond m).2.1
          (rwcInv maxInvar output cond m).2.2)
        (rwcInv maxInvar output cond m).2.2).2.1.isDesirable = false
    rw [checkTimeout_isDesirable, checkConsistent_isDesirable, hinv]
  · rw [hinv]
  · show (if (checkExplored cond output).1 || (rwcInv maxInvar output cond m).1
        then StatusType.skip
        else (rwcTimeout maxInvar tmoutSkip status0 output cond m).1) = .skip
        ↔ _
    cases he : (checkExplored cond output).1
    · cases hi : (rwcInv maxInvar output cond m).1
      · simp
      · simp
    · simp

/-- C7 witness: the amended theorem at `MAX_INVARIABLE_NUM = 2`,
output 5 equal to the previous output with the counter at 1, on the
exploring-state condition `condA`: desirability is cleared, the
invariable check requests the skip (not deterministic, not one-byte),
and the status is Skip. -/
theorem C7_invariable_marks_undesirable_witness :
    (runWithCond 2 3 .normal 5 condA ⟨0, 1, 5, 0⟩).2.1.isDesirable = false
    ∧ (rwcInv 2 5 condA ⟨0, 1, 5, 0⟩).1
        = (!(checkExplored condA 5).2.state.isDet
            && !(checkExplored condA 5).2.state.isOneByte)
    ∧ ((runWithCond 2 3 .normal 5 condA ⟨0, 1, 5, 0⟩).1 = .skip
        ↔ ((checkExplored condA 5).1 = true
            ∨ (rwcInv 2 5 condA ⟨0, 1, 5, 0⟩).1 = true
            ∨ (rwcTimeout 2 3 .normal 5 condA ⟨0, 1, 5, 0⟩).1 = .skip)) :=
  C7_invariable_marks_undesirable 2 3 .normal 5 condA ⟨0, 1, 5, 0⟩ rfl (by decide)

/-! ## Tracking pass: indirect-call magic-byte fabrication
(src/fuzzer/src/executor/executor.rs, `Executor::track`) -/

/-- usize wrapping subtraction of one: `var_len - 1` in the source is a
usize subtraction, which wraps to `2 ^ 64 - 1` when `var_len = 0`. -/
def usizeSub1 (n : Nat) : Nat := if n = 0 then 2 ^ 64 - 1 else n - 1

/-- One iteration of the `for (i, v) in dyncfg.get_magic_bytes(edge)`
loop in `Executor::track`: when the guard `i < var_len - 1` (usize
arithmetic) admits `i`, the source writes
`fixed_cond.variables[i] = v` — a write that panics when `i` is out of
bounds; the embedding returns none for the panic.  `varLen` is the
length the source captures before the loop. -/
def writeMagicStep (varLen : Nat) (acc : Option (List Nat)) (iv : Nat × Nat) :
    Option (List Nat) :=
  acc.bind fun vs =>
    if iv.1 < usizeSub1 varLen then
      if iv.1 < vs.length then some (vs.set iv.1 iv.2) else none
    else
      some vs

/-- The whole magic-byte rewrite loop over the fabricated clone's
variable vector. -/
def writeMagic (vars : List Nat) (magic : List (Nat × Nat)) : Option (List Nat) :=
  magic.foldl (writeMagicStep vars.length) (some vars)

/-- Expansion of a taint byte range to its offsets `[lo, hi)`. -/
def expandTagSeg (t : TagSeg) : List Nat := List.range' t.lo (t.hi - t.lo)

/-- All offsets contributed by a list of taint byte ranges. -/
def expandOffsets (l : List TagSeg) : List Nat := l.flatMap expandTagSeg

/-- Modelled from the spec: `set_magic_bytes(u, v, buf, offsets)`
captures the current input bytes at the given offsets as an
(index, byte) map on the edge and `get_magic_bytes` yields its pairs
(the dyncfg module is not among the given sources); only offsets that
lie inside the input can be captured. -/
def magicBytes (buf : List Nat) (offs : List TagSeg) : List (Nat × Nat) :=
  (expandOffsets offs).filterMap fun i => (buf.get? i).map fun v => (i, v)

/-- The fabrication of the synthetic indirect CondStmt in
`Executor::track`: clone `b`, append the fixed dominator offsets to its
offsets, and run the magic-byte rewrite loop over its variables; none
when that loop panics. -/
def fabricateIndirect (b : CondStmt) (fixedOffsets : List TagSeg)
    (magic : List (Nat × Nat)) : Option CondStmt :=
  let c := { b with offsets := b.offsets ++ fixedOffsets }
  (writeMagic c.vars magic).map fun vs => { c with vars := vs }

theorem writeMagic_foldl_none (varLen : Nat) (l : List (Nat × Nat)) :
    l.foldl (writeMagicStep varLen) none = none := by
  induction l with
  | nil => rfl
  | cons p t ih => exact ih

theorem writeMagic_length (varLen : Nat) :
    ∀ (magic : List (Nat × Nat)) (vs res : List Nat),
      magic.foldl (writeMagicStep varLen) (some vs) = some res →
      res.length = vs.length := by
  intro magic
  induction magic with
  | nil =>
      intro vs res h
      rw [← Option.some.inj h]
  | cons p t ih =>
      intro vs res h
      by_cases h1 : p.1 < usizeSub1 varLen
      · by_cases h2 : p.1 < vs.length
        · have h' : t.foldl (writeMagicStep varLen) (some (vs.set p.1 p.2)) = some res := by
            simpa [writeMagicStep, h1, h2] using h
          rw [ih _ _ h', List.length_set]
        · have h' : t.foldl (writeMagicStep varLen) none = some res := by
            simpa [writeMagicStep, h1, h2] using h
          rw [writeMagic_foldl_none] at h'
          cases h'
      · have h' : t.foldl (writeMagicStep varLen) (some vs) = some res := by
          simpa [writeMagicStep, h1] using h
        exact ih _ _ h'

theorem writeMagic_get (varLen : Nat) (buf : List Nat) :
    ∀ (magic : List (Nat × Nat)) (vs res : List Nat),
      (∀ p ∈ magic, buf.get? p.1 = some p.2) →
      magic.foldl (writeMagicStep varLen) (some vs) = some res →
      ∀ i : Nat,
        ((∃ v, (i, v) ∈ magic) → i < usizeSub1 varLen → res.get? i = buf.get? i)
        ∧ (((∀ v, (i, v) ∉ magic) ∨ ¬ i < usizeSub1 varLen) →
            res.get? i = vs.get? i) := by
  intro magic
  induction magic with
  | nil =>
      intro vs res _ h i
      rw [← Option.some.inj h]
      constructor
      · rintro ⟨v, hv⟩
        cases hv
      · intro _
        rfl
  | cons p t ih =>
      intro vs res hok h i
      have hokt : ∀ q ∈ t, buf.get? q.1 = some q.2 :=
        fun q hq => hok q (List.mem_cons_of_mem p hq)
      by_cases h1 : p.1 < usizeSub1 varLen
      · by_cases h2 : p.1 < vs.length
        · have h' : t.foldl (writeMagicStep varLen) (some (vs.set p.1 p.2)) = some res := by
            simpa [writeMagicStep, h1, h2] using h
          have IH := ih (vs.set p.1 p.2) res hokt h'
          constructor
          · rintro ⟨v, hv⟩ hadm
            rcases List.mem_cons.mp hv with heq | hvt
            · cases heq
              by_cases hmem : ∃ w, ((i, v).1, w) ∈ t
              · exact (IH (i, v).1).1 hmem hadm
              · have hnot : ∀ w, ((i, v).1, w) ∉ t := fun w hw => hmem ⟨w, hw⟩
                have hfr := (IH (i, v).1).2 (Or.inl hnot)
                rw [hfr, List.get?_set_eq_of_lt _ h2]
                exact (hok _ (List.mem_cons_self _ _)).symm
            · exact (IH i).1 ⟨v, hvt⟩ hadm
          · intro hno
            rcases hno with hall | hnadm
            · have hpi : p.1 ≠ i := by
                intro hpi
                exact hall p.2 (by
                  have : p = (i, p.2) := by
                    rw [← hpi]
                  rw [← this]
                  exact List.mem_cons_self p t)
              have htail : ∀ v, (i, v) ∉ t :=
                fun v hv => hall v (List.mem_cons_of_mem p hv)
              rw [(IH i).2 (Or.inl htail)]
              exact List.get?_set_ne _ _ hpi
            · have hpi : p.1 ≠ i := by
                intro hpi
                rw [hpi] at h1
                exact hnadm h1
              rw [(IH i).2 (Or.inr hnadm)]
              exact List.get?_set_ne _ _ hpi
        · have h' : t.foldl (writeMagicStep varLen) none = some res := by
            simpa [writeMagicStep, h1, h2] using h
          rw [writeMagic_foldl_none] at h'
          cases h'
      · have h' : t.foldl (writeMagicStep varLen) (some vs) = some res := by
          simpa [writeMagicStep, h1] using h
        have IH := ih vs res hokt h'
        constructor
        · rintro ⟨v, hv⟩ hadm
          rcases List.mem_cons.mp hv with heq | hvt
          · exfalso
            apply h1
            rw [← heq]
            exact hadm
          · exact (IH i).1 ⟨v, hvt⟩ hadm
        · intro hno
          rcases hno with hall | hnadm
          · exact (IH i).2 (Or.inl fun v hv => hall v (List.mem_cons_of_mem p hv))
          · exact (IH i).2 (Or.inr hnadm)

theorem magicBytes_sound (buf : List Nat) (offs : List TagSeg) :
    ∀ p ∈ magicBytes buf offs, buf.get? p.1 = some p.2 := by
  intro p hp
  obtain ⟨j, _, hj⟩ := List.mem_filterMap.mp hp
  cases hbj : buf.get? j with
  | none => rw [hbj] at hj; cases hj
  | some w =>
      rw [hbj] at hj
      cases Option.some.inj hj
      exact hbj

theorem magicBytes_complete (buf : List Nat) (offs : List TagSeg) (i : Nat)
    (hin : i ∈ expandOffsets offs) (hlt : i < buf.length) :
    ∃ v, (i, v) ∈ magicBytes buf offs := by
  cases hbj : buf.get? i with
  | none =>
      rw [List.get?_eq_none] at hbj
      omega
  | some w =>
      refine ⟨w, List.mem_filterMap.mpr ⟨i, hin, ?_⟩⟩
      rw [hbj]
      rfl

/-- C8: whenever the tracking pass emits a synthetic indirect clone
(the fabrication does not panic), the clone's offsets include every
fixed dominator offset, each index `i` carried by the magic bytes with
`i < |variables| - 1` has the clone's `variables[i]` equal to the byte
captured from the input at offset `i`, and every index at or beyond
`|variables| - 1` is left unchanged (the `< len - 1` bound is
preserved exactly). -/
theorem C8_fabricated_clone_magic (b : CondStmt) (buf : List Nat)
    (fixedOffsets : List TagSeg) (clone : CondStmt)
    (h : fabricateIndirect b fixedOffsets (magicBytes buf fixedOffsets) = some clone) :
    (∀ t ∈ fixedOffsets, t ∈ clone.offsets)
    ∧ (∀ i, i ∈ expandOffsets fixedOffsets → i < buf.length →
        i + 1 < b.vars.length → clone.vars.get? i = buf.get? i)
    ∧ (∀ i, b.vars.length ≤ i + 1 → clone.vars.get? i = b.vars.get? i) := by
  have hfab : fabricateIndirect b fixedOffsets (magicBytes buf fixedOffsets)
      = (writeMagic b.vars (magicBytes buf fixedOffsets)).map
          (fun vs => { b with offsets := b.offsets ++ fixedOffsets, vars := vs }) := rfl
  have hw : ∃ vs, writeMagic b.vars (magicBytes buf fixedOffsets) = some vs
      ∧ clone = { b with offsets := b.offsets ++ fixedOffsets, vars := vs } := by
    rw [hfab] at h
    cases hres : writeMagic b.vars (magicBytes buf fixedOffsets) with
    | none => rw [hres] at h; cases h
    | some vs =>
        rw [hres] at h
        exact ⟨vs, rfl, (Option.some.inj h).symm⟩
  obtain ⟨vs, hres, hclone⟩ := hw
  subst hclone
  have hkey := writeMagic_get b.vars.length buf (magicBytes buf fixedOffsets)
    b.vars vs (magicBytes_sound buf fixedOffsets) hres
  refine ⟨?_, ?_, ?_⟩
  · intro t ht
    exact List.mem_append.mpr (Or.inr ht)
  · intro i hin hlt hbound
    have hadm : i < usizeSub1 b.vars.length := by
      unfold usizeSub1
      rw [if_neg (by omega)]
      omega
    exact (hkey i).1 (magicBytes_complete buf fixedOffsets i hin hlt) hadm
  · intro i hi
    by_cases hz : b.vars.length = 0
    · have h0 : vs.length = b.vars.length :=
        writeMagic_length b.vars.length (magicBytes buf fixedOffsets) b.vars vs hres
      have : vs.get? i = none := by
        rw [List.get?_eq_none]
        omega
      have hb : b.vars.get? i = none := by
        rw [List.get?_eq_none]
        omega
      rw [this, hb]
    · have hnadm : ¬ i < usizeSub1 b.vars.length := by
        unfold usizeSub1
        rw [if_neg hz]
        omega
      exact (hkey i).2 (Or.inr hnadm)

/-- A tracked condition whose last variable slot is the compared
value. -/
def sampleB : CondStmt := { condA with vars := [10, 20, 30] }

/-- The current input buffer for the fabrication witness. -/
def sampleBuf : List Nat := [1, 2, 3]

/-- A dominator taint range covering offsets 0 and 1. -/
def seg02 : TagSeg := { sign := false, lo := 0, hi := 2 }

/-- The fabricated clone on `sampleB`: offsets gain `seg02`, variable
slots 0 and 1 take the input bytes, the final slot stays. -/
def cloneSample : CondStmt :=
  { sampleB with offsets := sampleB.offsets ++ [seg02], vars := [1, 2, 30] }

/-- C8 witness: the theorem applied to the concrete fabrication on
`sampleB` with input `[1, 2, 3]` and dominator offsets `[0, 2)`: the
fixed offset range is in the clone's offsets, slot 0 takes the input
byte at offset 0, and slot 2 (the last, `≥ len - 1`) is unchanged. -/
theorem C8_fabricated_clone_magic_witness :
    seg02 ∈ cloneSample.offsets
    ∧ cloneSample.vars.get? 0 = sampleBuf.get? 0
    ∧ cloneSample.vars.get? 2 = sampleB.vars.get? 2 := by
  have h := C8_fabricated_clone_magic sampleB sampleBuf [seg02] cloneSample (by decide)
  exact ⟨h.1 seg02 (by decide), h.2.1 0 (by decide) (by decide) (by decide),
    h.2.2 2 (by decide)⟩

/-- C10 counterexample: the claim says the guard only admits in-bounds
indices even when the variables vector is empty.  With an empty
variables vector the usize subtraction `var_len - 1` wraps to
`2 ^ 64 - 1`, so the guard admits index 0, which is out of bounds, and
the rewrite loop panics (none) on the magic-byte pair `(0, 5)`. -/
theorem C10_empty_vars_guard_admits_oob :
    writeMagic [] [(0, 5)] = none
    ∧ 0 < usizeSub1 0
    ∧ ¬ 0 < ([] : List Nat).length := by
  refine ⟨rfl, ?_, by simp⟩
  unfold usizeSub1
  norm_num

/-- C10 amended: whenever the variables vector is non-empty, the guard
`i < var_len - 1` only admits in-bounds indices and the magic-byte
rewrite loop never panics; the no-panic guarantee genuinely needs the
non-emptiness, since with an empty vector the usize subtraction wraps
and admits out-of-bounds writes. -/
theorem C10_rewrite_in_bounds (vars : List Nat) (magic : List (Nat × Nat))
    (h : 1 ≤ vars.length) :
    (writeMagic vars magic).isSome = true
    ∧ (∀ i, i < usizeSub1 vars.length → i < vars.length) := by
  constructor
  · have key : ∀ (m : List (Nat × Nat)) (vs : List Nat), vs.length = vars.length →
        ∃ res, m.foldl (writeMagicStep vars.length) (some vs) = some res := by
      intro m
      induction m with
      | nil => exact fun vs _ => ⟨vs, rfl⟩
      | cons p t ih =>
          intro vs hlen
          by_cases h1 : p.1 < usizeSub1 vars.length
          · have h2 : p.1 < vs.length := by
              unfold usizeSub1 at h1
              rw [if_neg (by omega)] at h1
              omega
            have hstep : writeMagicStep vars.length (some vs) p
                = some (vs.set p.1 p.2) := by
              simp [writeMagicStep, h1, h2]
            rw [List.foldl_cons, hstep]
            exact ih _ (by rw [List.length_set]; exact hlen)
          · have hstep : writeMagicStep vars.length (some vs) p = some vs := by
              simp [writeMagicStep, h1]
            rw [List.foldl_cons, hstep]
            exact ih _ hlen
    obtain ⟨res, hres⟩ := key magic vars rfl
    unfold writeMagic
    rw [hres]
    rfl
  · intro i hi
    unfold usizeSub1 at hi
    rw [if_neg (by omega)] at hi
    omega

/-- C10 witness: the amended theorem on the singleton vector `[10]`:
the loop succeeds (the guard `i < 0` admits nothing), and admitted
indices are in bounds. -/
theorem C10_rewrite_in_bounds_witness :
    (writeMagic [10] [(5, 9)]).isSome = true
    ∧ (0 < usizeSub1 [10].length → 0 < [10].length) :=
  ⟨(C10_rewrite_in_bounds [10] [(5, 9)] (by decide)).1,
   (C10_rewrite_in_bounds [10] [(5, 9)] (by decide)).2 0⟩

end Parmesan
